import Mathlib

/-!
# Verification of the manga graph exploration engine

Shallow embedding of the graph exploration core found in
`src/components/GraphView.tsx` and `src/components/DiscoveryModal.tsx`:
the load pipeline (`GraphLoader`), the visibility resolver
(`InteractiveGraph`'s active-set effect), the pointer gesture handlers
(`handleMouseMove` / `handleMouseUp` / `downNode`) and the discovery
candidate pool (`DiscoveryModal`).

Numeric score/strength values are embedded as rationals (`ℚ`); the source
only compares and linearly combines them, so order and arithmetic agree
with the JavaScript doubles on all dataset values of interest.
-/

namespace MangaNexus

/-- Type `RawNode` from GraphView.tsx: one manga title as it appears in the
dataset (`title_en` is `string | null | undefined`, embedded as
`Option String`). -/
structure RawNode where
  id : String
  title : String
  title_en : Option String
  image_url : String
  score : ℚ
  scored_by : ℕ
  genres : List String
  deriving Repr, DecidableEq

/-- Type `RawEdge` from GraphView.tsx: one edge declaration of the dataset. -/
structure RawEdge where
  source : String
  target : String
  strength : ℚ
  deriving Repr, DecidableEq

/-- Type `GraphData` from GraphView.tsx: the fetched dataset. -/
structure GraphData where
  nodes : List RawNode
  edges : List RawEdge
  deriving Repr, DecidableEq

/-- A materialized edge of the graphology store: `GraphLoader` copies the
raw edge and stores `weight: edge.strength`; only `weight` is consulted by
the visibility resolver.  `new Graph()` is a graphology *mixed* graph, so
`addEdge(source, target)` inserts a *directed* edge and the stored record
keeps its orientation. -/
structure Edge where
  source : String
  target : String
  weight : ℚ
  deriving Repr, DecidableEq

/-- The in-memory graph store as consumed by the visibility resolver:
node attribute records (insertion order) and materialized edges. -/
structure Graph where
  nodes : List RawNode
  edges : List Edge
  deriving Repr, DecidableEq

/-- Embeds `graph.hasNode(id)`. -/
def Graph.hasNode (g : Graph) (id : String) : Bool :=
  g.nodes.any (fun n => n.id = id)

/-- Embeds `graph.getNodeAttributes(id)`, restricted to the `RawNode` fields the
resolver reads (graphology returns the attribute record of the node). -/
def Graph.getNodeAttributes (g : Graph) (id : String) : Option RawNode :=
  g.nodes.find? (fun n => n.id = id)

-- ==========================================
-- Settings (GraphView.tsx lines 20-22)
-- ==========================================

def LOAD_MIN_SCORE : ℚ := 1
def INITIAL_MIN_STRENGTH : ℚ := 0
def INITIAL_DISPLAY_SCORE : ℚ := 6

-- ==========================================
-- GraphLoader (GraphView.tsx lines 434-517)
-- ==========================================

/-- The node loop of `GraphLoader` (lines 445-465): skip nodes with
`score < LOAD_MIN_SCORE`, then `if (!graph.hasNode(node.id))` add the
node.  `acc` is the list of nodes added so far; positions, colors and
labels are layout/presentation attributes not consulted by any claim and
are omitted from the record. -/
def loadNodesAux : List RawNode → List RawNode → List RawNode
  | acc, [] => acc
  | acc, node :: rest =>
    if node.score < LOAD_MIN_SCORE then loadNodesAux acc rest
    else if acc.any (fun n => n.id = node.id) then loadNodesAux acc rest
    else loadNodesAux (acc ++ [node]) rest

def loadNodes (ns : List RawNode) : List RawNode := loadNodesAux [] ns

/-- Embeds `graph.hasEdge(source, target)` on the mixed graphology graph built by
`GraphLoader`: every inserted edge is directed, so the arity-2 `hasEdge`
matches only an existing edge with the same source→target orientation. -/
def hasEdgeST (es : List Edge) (s t : String) : Bool :=
  es.any (fun e => e.source = s ∧ e.target = t)

/-- The edge loop of `GraphLoader` (lines 468-483): materialize an edge iff
both endpoints survived the node loop and `!graph.hasEdge(edge.source,
edge.target)`. -/
def loadEdgesAux (nodes : List RawNode) : List Edge → List RawEdge → List Edge
  | acc, [] => acc
  | acc, e :: rest =>
    if (nodes.any fun n => n.id = e.source) ∧ (nodes.any fun n => n.id = e.target) then
      if hasEdgeST acc e.source e.target then loadEdgesAux nodes acc rest
      else loadEdgesAux nodes (acc ++ [⟨e.source, e.target, e.strength⟩]) rest
    else loadEdgesAux nodes acc rest

def loadEdges (nodes : List RawNode) (es : List RawEdge) : List Edge :=
  loadEdgesAux nodes [] es

/-- Embeds `graph.degree(node)` on the store: number of incident edge endpoints
(a self-loop counts twice, as in graphology). -/
def degreeIn (es : List Edge) (id : String) : ℕ :=
  (es.map fun e =>
    (if e.source = id then 1 else 0) + (if e.target = id then 1 else 0)).sum

/-- Function `load` embeds `GraphLoader`'s graph construction (lines 437-514): node loop,
edge loop, then `graph.forEachNode((node) => { if (graph.degree(node) === 0)
graph.dropNode(node); })` (dropping a degree-0 node removes no edges, so
the pass is a filter). The settle layout pass only moves positions and is
omitted. -/
def load (data : GraphData) : Graph :=
  let nodes := loadNodes data.nodes
  let edges := loadEdges nodes data.edges
  ⟨nodes.filter (fun n => degreeIn edges n.id ≠ 0), edges⟩

/-- Embeds `Math.min(...degrees)` over the degrees of the surviving nodes
(the source only reads it when at least one node survives; the `[]` case
is junk). -/
def minDegree (g : Graph) : ℕ :=
  match g.nodes.map (fun n => degreeIn g.edges n.id) with
  | [] => 0
  | d :: ds => ds.foldl min d

/-- Embeds `Math.max(...degrees)` over the degrees of the surviving nodes. -/
def maxDegree (g : Graph) : ℕ :=
  match g.nodes.map (fun n => degreeIn g.edges n.id) with
  | [] => 0
  | d :: ds => ds.foldl max d

/-- JavaScript `x || 1` on the numeric denominator. -/
def orOne (x : ℚ) : ℚ := if x = 0 then 1 else x

/-- Embeds `const ratio = (degree - minDegree) / (maxDegree - minDegree || 1)`
(line 495), stored as the node's `importance` attribute. -/
def importanceOf (g : Graph) (id : String) : ℚ :=
  ((degreeIn g.edges id : ℚ) - (minDegree g : ℚ)) /
    orOne ((maxDegree g : ℚ) - (minDegree g : ℚ))

/-- Embeds `const size = 3 + (ratio * 12)` (line 496), the rendered radius. -/
def sizeOf (g : Graph) (id : String) : ℚ :=
  3 + importanceOf g id * 12

-- ==========================================
-- Visibility resolver (GraphView.tsx lines 341-406)
-- ==========================================

/-- Filter state handed to `InteractiveGraph`: interactive thresholds and
switches.  `selectedGenres` is a JS `Set<string>`, embedded as a list
queried only through membership and emptiness. -/
structure FilterState where
  minStrength : ℚ
  minScore : ℚ
  selectedGenres : List String
  isAwardWinningOnly : Bool
  deriving Repr, DecidableEq

/-- Embeds `isNodeValid` (lines 342-355): existence, score floor, then the
award-winning switch overriding the genre set. -/
def isNodeValid (g : Graph) (fs : FilterState) (nodeId : String) : Bool :=
  match g.getNodeAttributes nodeId with
  | none => false
  | some attrs =>
    if attrs.score < fs.minScore then false
    else if fs.isAwardWinningOnly then attrs.genres.contains "Award Winning"
    else if fs.selectedGenres ≠ [] then
      attrs.genres.any (fun gnr => fs.selectedGenres.contains gnr)
    else true

/-- Membership in `validEdges` (lines 357-367): `attrs.weight || 0 >=
minStrength`. -/
def isValidEdge (fs : FilterState) (e : Edge) : Bool :=
  fs.minStrength ≤ e.weight

/-- Embeds `nodesWithValidEdges` (lines 358-367): endpoints of strength-valid
edges. -/
def nodesWithValidEdges (g : Graph) (fs : FilterState) : Finset String :=
  ((g.edges.filter (isValidEdge fs)).flatMap fun e => [e.source, e.target]).toFinset

/-- One step of `graph.forEachEdge(selId, ...)` in the selection branch
(lines 382-387 / 392-397): if the edge is incident to `selId`, the
neighbor is `source === selId ? target : source`; it becomes a candidate
iff the edge is strength-valid and the neighbor is filter-valid. -/
def candOfEdge (g : Graph) (fs : FilterState) (selId : String) (e : Edge) :
    Option String :=
  if e.source = selId ∨ e.target = selId then
    let neighbor := if e.source = selId then e.target else e.source
    if isValidEdge fs e ∧ isNodeValid g fs neighbor then some neighbor else none
  else none

/-- The qualifying-neighbor set of one selected id (its `candidates` /
`nextNeighbors` set in the source). -/
def neighborCandidates (g : Graph) (fs : FilterState) (selId : String) :
    Finset String :=
  (g.edges.filterMap (candOfEdge g fs selId)).toFinset

/-- The `activeNodes` computation (lines 369-404).  `selection` is
`Array.from(selectedNodes)` in insertion order.  Empty selection: nodes
that are filter-valid and incident to a strength-valid edge.  Non-empty
selection: guarded running intersection of qualifying-neighbor sets,
united with all selected ids — and the empty set when the first selected
id is not a node. -/
def activeNodes (g : Graph) (fs : FilterState) (selection : List String) :
    Finset String :=
  match selection with
  | [] =>
    (g.nodes.filterMap fun n =>
      if n.id ∈ nodesWithValidEdges g fs ∧ isNodeValid g fs n.id then some n.id
      else none).toFinset
  | firstId :: rest =>
    if g.hasNode firstId then
      let candidates := rest.foldl
        (fun cand nextId =>
          if g.hasNode nextId then cand ∩ neighborCandidates g fs nextId else cand)
        (neighborCandidates g fs firstId)
      (firstId :: rest).toFinset ∪ candidates
    else ∅

-- ==========================================
-- Pointer gesture handlers (GraphView.tsx lines 187-299)
-- ==========================================

/-- The mutable per-node state of the graphology store touched by the
gesture handlers: the attribute record plus position/velocity and the
`fixed` flag.  The source only ever writes `fixed: true` and removes the
attribute again, so attribute presence is embedded as the Boolean value. -/
structure StoreNode where
  attrs : RawNode
  x : ℚ := 0
  y : ℚ := 0
  vx : ℚ := 0
  vy : ℚ := 0
  fixed : Bool := false
  deriving Repr, DecidableEq

/-- The graph store as a keyed node map (edges are never touched by the
gesture handlers). -/
structure GraphStore where
  nodes : List (String × StoreNode)
  deriving Repr, DecidableEq

/-- Embeds `graph.getNodeAttributes(id)` as a lookup (`none` when the node is
absent; graphology throws `NotFoundGraphError` there, which callers
surface as `GraphErr`). -/
def GraphStore.getNode (s : GraphStore) (id : String) : Option StoreNode :=
  (s.nodes.find? (fun p => p.1 = id)).map Prod.snd

/-- Embeds `graph.hasNode(id)`. -/
def GraphStore.hasNode (s : GraphStore) (id : String) : Bool :=
  (s.getNode id).isSome

/-- Rewrite the state of one node in place (identity when absent). -/
def GraphStore.updateNode (s : GraphStore) (id : String)
    (f : StoreNode → StoreNode) : GraphStore :=
  ⟨s.nodes.map fun p => if p.1 = id then (p.1, f p.2) else p⟩

/-- The error graphology raises when an attribute accessor names a missing
node (`NotFoundGraphError`). -/
inductive GraphErr where
  | nodeNotFound
  deriving Repr, DecidableEq

/-- Embeds `graph.setNodeAttribute(id, ..., v)`: throws when the node is absent,
otherwise updates it. -/
def GraphStore.setAttr (s : GraphStore) (id : String)
    (f : StoreNode → StoreNode) : Except GraphErr GraphStore :=
  if s.hasNode id then .ok (s.updateNode id f) else .error .nodeNotFound

/-- Embeds `graph.hasNodeAttribute(id, 'fixed')`: throws when the node is absent. -/
def GraphStore.hasFixedAttr (s : GraphStore) (id : String) :
    Except GraphErr Bool :=
  match s.getNode id with
  | none => .error .nodeNotFound
  | some ns => .ok ns.fixed

/-- Embeds `graph.removeNodeAttribute(id, 'fixed')`; the single call site
(line 252) is guarded by `graph.hasNode`, so the embedding is total. -/
def GraphStore.removeFixed (s : GraphStore) (id : String) : GraphStore :=
  s.updateNode id (fun ns => { ns with fixed := false })

/-- Embeds `dragInfoRef.current` (lines 187-192). -/
structure DragInfo where
  nodeId : String
  startX : ℚ
  startY : ℚ
  isDragging : Bool
  deriving Repr, DecidableEq

/-- A pointer event's client coordinates. -/
structure MouseEvent where
  clientX : ℚ
  clientY : ℚ
  deriving Repr, DecidableEq

/-- Embeds `Math.hypot(dx, dy) > 5` (lines 218-222): both sides are nonnegative,
so the comparison is equivalent to `dx² + dy² > 5²` and stays rational. -/
def exceedsThreshold (startX startY : ℚ) (e : MouseEvent) : Bool :=
  decide (25 < (e.clientX - startX) * (e.clientX - startX) +
    (e.clientY - startY) * (e.clientY - startY))

/-- Embeds `handleMouseMove` (lines 215-244).  `proj` stands for
`sigma.viewportToGraph` composed with the container-rect offset (camera
state is opaque to the store).  Tooltip and cursor effects are
presentation-only and omitted.  Note the source's second branch reads
`dragInfoRef.current.isDragging` *after* the first branch may have set it,
and performs its `setNodeAttribute` position writes without any
`graph.hasNode` guard. -/
def handleMouseMove (proj : MouseEvent → ℚ × ℚ) (store : GraphStore)
    (drag : Option DragInfo) (e : MouseEvent) :
    Except GraphErr (GraphStore × Option DragInfo) :=
  match drag with
  | none => .ok (store, none)
  | some info =>
    let exceeded := exceedsThreshold info.startX info.startY e
    let info' : DragInfo :=
      if ¬ info.isDragging ∧ exceeded then { info with isDragging := true }
      else info
    let step1 : Except GraphErr GraphStore :=
      if ¬ info.isDragging ∧ exceeded then
        match store.hasFixedAttr info.nodeId with
        | .error err => .error err
        | .ok b =>
          if ¬ b then store.setAttr info.nodeId (fun ns => { ns with fixed := true })
          else .ok store
      else .ok store
    match step1 with
    | .error err => .error err
    | .ok store1 =>
      if info'.isDragging then
        match store1.setAttr info.nodeId
            (fun ns => { ns with x := (proj e).1, y := (proj e).2, vx := 0, vy := 0 }) with
        | .error err => .error err
        | .ok store2 => .ok (store2, some info')
      else .ok (store1, some info')

/-- Embeds `handleMouseUp` (lines 246-264).  Returns the new store, the cleared
drag ref, the id passed to `onToggleNode` (via `convertToMangaNode(attrs).id`)
and the id passed to `handleFocus` — the selection-toggle and camera-focus
commands of the click resolution.  The drag branch guards its
`removeNodeAttribute` with `graph.hasNode`; the click branch calls
`graph.getNodeAttributes` unguarded. -/
def handleMouseUp (store : GraphStore) (drag : Option DragInfo) :
    Except GraphErr (GraphStore × Option DragInfo × Option String × Option String) :=
  match drag with
  | none => .ok (store, none, none, none)
  | some info =>
    if info.isDragging then
      let store' :=
        if store.hasNode info.nodeId then store.removeFixed info.nodeId else store
      .ok (store', none, none, none)
    else
      match store.getNode info.nodeId with
      | none => .error .nodeNotFound
      | some ns => .ok (store, none, some ns.attrs.id, some info.nodeId)

/-- The `downNode` handler (lines 267-283): ignore non-primary buttons,
otherwise arm the gesture on the node at the pointer's client coordinates
(`isDragging: false`). -/
def downNode (drag : Option DragInfo) (button : ℕ) (nodeId : String)
    (clientX clientY : ℚ) : Option DragInfo :=
  if button ≠ 0 then drag
  else some ⟨nodeId, clientX, clientY, false⟩

/-- The document-level `mousemove` stream between `downNode` and
`mouseup`: `handleMouseMove` applied to each event in order, propagating a
graphology throw. -/
def foldMoves (proj : MouseEvent → ℚ × ℚ) (store : GraphStore)
    (drag : Option DragInfo) : List MouseEvent →
    Except GraphErr (GraphStore × Option DragInfo)
  | [] => .ok (store, drag)
  | e :: rest =>
    match handleMouseMove proj store drag e with
    | .error err => .error err
    | .ok (s', d') => foldMoves proj s' d' rest

-- ==========================================
-- Discovery Mode (DiscoveryModal.tsx lines 11-37)
-- ==========================================

/-- Type `SearchableNode` from ControlPanel.tsx lines 3-10. -/
structure SearchableNode where
  id : String
  title : String
  title_en : Option String
  score : ℚ
  image_url : String
  genres : List String
  deriving Repr, DecidableEq

def GRID_SIZE : ℕ := 25

/-- The `candidates` memo (DiscoveryModal.tsx lines 22-28): nodes with
`score >= 8.0` or with the award tag among their genres. -/
def discoveryCandidates (nodeList : List SearchableNode) :
    List SearchableNode :=
  nodeList.filter fun n =>
    decide (8 ≤ n.score) || n.genres.contains "Award Winning"

/-- Embeds `refreshNodes` (lines 31-37): keep the current grid when the pool is
empty, otherwise display the first `GRID_SIZE` entries of the shuffle.
The comparison-sort shuffle returns some permutation of `candidates`
regardless of the inconsistent comparator, so `shuffled` is passed in and
constrained to a permutation in the theorems. -/
def refreshNodes (candidates shuffled displayed : List SearchableNode) :
    List SearchableNode :=
  if candidates = [] then displayed
  else shuffled.take GRID_SIZE

-- ==========================================
-- Concrete datasets for the scenario claims
-- ==========================================

/-- Dataset node literal with the fields the engine consults. -/
def mkNode (id : String) (score : ℚ) (genres : List String) : RawNode :=
  ⟨id, id, none, "", score, 0, genres⟩

/-- The 3-node dataset of spec scenarios A/B/C: X (score 9), Y (score 5),
Z (score 7); edges X–Y (strength 0.4) and X–Z (strength 0.1). -/
def scenarioData : GraphData :=
  ⟨[mkNode "X" 9 [], mkNode "Y" 5 [], mkNode "Z" 7 []],
   [⟨"X", "Y", mkRat 2 5⟩, ⟨"X", "Z", mkRat 1 10⟩]⟩

def scenarioGraph : Graph := load scenarioData

/-- Scenario A filter state: minStrength 0.2, minScore 6, no genre or
award restriction. -/
def scenarioAFilter : FilterState := ⟨mkRat 1 5, 6, [], false⟩

/-- Two nodes, and the same unordered pair declared twice in opposite
orientations. -/
def dupEdgeData : GraphData :=
  ⟨[mkNode "A" 5 [], mkNode "B" 5 []],
   [⟨"A", "B", mkRat 1 2⟩, ⟨"B", "A", mkRat 7 10⟩]⟩

/-- A store holding a single node `"A"` (used to exercise the gesture
handlers against a removed node id `"G"`). -/
def storeA : GraphStore := ⟨[("A", { attrs := mkNode "A" 5 [] })]⟩

/-- A concrete viewport→graph projection (the identity). -/
def projId : MouseEvent → ℚ × ℚ := fun e => (e.clientX, e.clientY)

/-- Scenario C filter state: minStrength 0.0, the default load floor as
the interactive score floor, no genre or award restriction. -/
def scenarioCFilter : FilterState := ⟨0, 1, [], false⟩

/-- A one-node graph with no edges; `"G"` is not one of its nodes. -/
def ghostGraph : Graph := ⟨[mkNode "A" 5 []], []⟩

/-- An unconstrained filter state. -/
def anyFilter : FilterState := ⟨0, 0, [], false⟩

/-- An award-winning node `W` linked to a plain node `V`. -/
def awardGraph : Graph :=
  ⟨[mkNode "W" 9 ["Award Winning"], mkNode "V" 9 []],
   [⟨"W", "V", mkRat 1 2⟩]⟩

/-- Award-only filter state with a score floor of 6. -/
def awardFilter : FilterState := ⟨0, 6, [], true⟩

/-- The spec's description of one selected id's qualifying neighbor set:
`x` is joined to the selected id `s` by an edge of the store whose
strength meets `minStrength`, and `x` itself is filter-valid. -/
def isQualifiedNeighbor (g : Graph) (fs : FilterState) (s x : String) : Prop :=
  ∃ e ∈ g.edges,
    ((e.source = s ∧ e.target = x) ∨ (e.target = s ∧ e.source = x)) ∧
    fs.minStrength ≤ e.weight ∧ isNodeValid g fs x = true

instance (g : Graph) (fs : FilterState) (s x : String) :
    Decidable (isQualifiedNeighbor g fs s x) := by
  unfold isQualifiedNeighbor; infer_instance

-- ==========================================
-- Theorems
-- ==========================================

/-- Claim C3, counterexample.  On the scenario A dataset with
minScore = 6, minStrength = 0.2 and an empty Selection Set, the computed
Active Set is *not* empty: node X is filter-valid and incident to the
strength-valid edge X–Y (the incidence check does not require the other
endpoint to be filter-valid). -/
theorem scenarioA_activeSet_not_empty :
    activeNodes scenarioGraph scenarioAFilter [] ≠ ∅ := by decide

/-- Claim C3, amended.  On the scenario A dataset with minScore = 6,
minStrength = 0.2 and an empty Selection Set, the computed Active Set is
exactly {X}: Y fails the score floor, Z's only edge fails the strength
floor, but X survives because edge X–Y is strength-valid and incidence is
checked without regard to the other endpoint's filter validity. -/
theorem scenarioA_activeSet_eq_X :
    activeNodes scenarioGraph scenarioAFilter [] = {"X"} := by decide

/-- Claim C7, counterexample.  Declaring the pair {A, B} twice in opposite
orientations materializes *two* edges: the store is a graphology mixed
graph, `addEdge` inserts directed edges and `hasEdge(source, target)` does
not match the earlier edge of reversed orientation. -/
theorem dup_pair_reverse_orientation_materialized_twice :
    ((load dupEdgeData).edges.countP fun e =>
      decide ((e.source = "A" ∧ e.target = "B") ∨
        (e.source = "B" ∧ e.target = "A"))) = 2 := by decide

/-- The edge loop preserves pairwise distinctness of (source, target)
orientations: the `hasEdge(source, target)` guard rejects exactly the
same-orientation duplicates of already-materialized edges. -/
theorem loadEdgesAux_pairwise (nodes : List RawNode) (es : List RawEdge) :
    ∀ acc : List Edge,
      acc.Pairwise (fun e1 e2 => ¬ (e1.source = e2.source ∧ e1.target = e2.target)) →
      (loadEdgesAux nodes acc es).Pairwise
        (fun e1 e2 => ¬ (e1.source = e2.source ∧ e1.target = e2.target)) := by
  induction es with
  | nil => intro acc h; simpa [loadEdgesAux] using h
  | cons e rest ih =>
    intro acc h
    rw [loadEdgesAux]
    split_ifs with h1 h2
    · exact ih acc h
    · apply ih
      rw [List.pairwise_append]
      refine ⟨h, List.pairwise_singleton _ _, ?_⟩
      intro a ha b hb
      simp only [List.mem_singleton] at hb
      subst hb
      intro hab
      apply h2
      simp only [hasEdgeST, List.any_eq_true, decide_eq_true_eq]
      exact ⟨a, ha, hab.1, hab.2⟩
    · exact ih acc h

/-- Claim C7, amended.  After load there is at most one edge per *ordered*
(source, target) pair: same-orientation duplicate declarations are ignored
(first occurrence wins); a declaration of the same unordered pair in the
opposite orientation is materialized as a second, distinct edge. -/
theorem load_edges_unique_per_orientation (data : GraphData) :
    ((load data).edges).Pairwise
      (fun e1 e2 => ¬ (e1.source = e2.source ∧ e1.target = e2.target)) := by
  simp only [load, loadEdges]
  exact loadEdgesAux_pairwise _ _ [] (List.Pairwise.nil)

/-- Claim C9, counterexample.  With the tracked node id `"G"` absent from
the store, a pointer-move in the dragging state raises graphology's
node-not-found error from the unguarded position `setNodeAttribute`
(GraphView.tsx line 239), and a pointer-up in the armed (click) state
raises it from the unguarded `getNodeAttributes` (line 255): neither path
is skipped silently. -/
theorem removed_node_gesture_raises :
    handleMouseMove projId storeA (some ⟨"G", 0, 0, true⟩) ⟨100, 100⟩
      = .error .nodeNotFound ∧
    handleMouseUp storeA (some ⟨"G", 0, 0, false⟩) = .error .nodeNotFound := by
  constructor <;> rfl

/-- Claim C9, amended.  Only the drag-resolution path of pointer-up is
guarded: when the gesture is in the dragging state and the tracked node
has been removed, pointer-up skips the unpin silently, clears the gesture
and raises no error. -/
theorem removed_node_drag_up_is_silent (store : GraphStore) (info : DragInfo)
    (h1 : info.isDragging = true) (h2 : store.hasNode info.nodeId = false) :
    handleMouseUp store (some info) = .ok (store, none, none, none) := by
  simp [handleMouseUp, h1, h2]

/-- Witness for `removed_node_drag_up_is_silent` at a concrete store and
gesture. -/
theorem removed_node_drag_up_is_silent_witness :
    (⟨"G", 0, 0, true⟩ : DragInfo).isDragging = true ∧
    storeA.hasNode "G" = false ∧
    handleMouseUp storeA (some ⟨"G", 0, 0, true⟩) = .ok (storeA, none, none, none) :=
  ⟨rfl, by decide,
    removed_node_drag_up_is_silent storeA ⟨"G", 0, 0, true⟩ rfl (by decide)⟩

/-- Claim C10.  The Discovery Mode candidate pool is exactly the loaded
nodes with score ≥ 8.0 or the award tag; a refresh on an empty pool keeps
the current grid; and a refresh on a non-empty pool displays a grid drawn
from the pool of size at most `GRID_SIZE` (= 25), for any permutation the
comparison-sort shuffle may produce. -/
theorem discovery_pool_and_grid (nodeList shuffled displayed : List SearchableNode)
    (hperm : shuffled.Perm (discoveryCandidates nodeList)) :
    (∀ n, n ∈ discoveryCandidates nodeList ↔
      n ∈ nodeList ∧ (8 ≤ n.score ∨ "Award Winning" ∈ n.genres)) ∧
    (discoveryCandidates nodeList = [] →
      refreshNodes (discoveryCandidates nodeList) shuffled displayed = displayed) ∧
    (discoveryCandidates nodeList ≠ [] →
      (∀ n ∈ refreshNodes (discoveryCandidates nodeList) shuffled displayed,
        n ∈ discoveryCandidates nodeList) ∧
      (refreshNodes (discoveryCandidates nodeList) shuffled displayed).length
        ≤ GRID_SIZE) := by
  refine ⟨?_, ?_, ?_⟩
  · intro n
    simp [discoveryCandidates, List.mem_filter]
  · intro h
    simp [refreshNodes, h]
  · intro h
    constructor
    · intro n hn
      rw [refreshNodes, if_neg h] at hn
      exact hperm.mem_iff.mp (List.mem_of_mem_take hn)
    · rw [refreshNodes, if_neg h]
      exact List.length_take_le _ _

/-- Witness for `discovery_pool_and_grid` on a concrete node list (a
high-score node, an award-winning node and a disqualified one), with the
shuffle instantiated to the identity permutation. -/
theorem discovery_pool_and_grid_witness :
    (List.Perm
      (discoveryCandidates
        [⟨"H", "H", none, 9, "", []⟩, ⟨"W", "W", none, 5, "", ["Award Winning"]⟩,
         ⟨"L", "L", none, 5, "", []⟩])
      (discoveryCandidates
        [⟨"H", "H", none, 9, "", []⟩, ⟨"W", "W", none, 5, "", ["Award Winning"]⟩,
         ⟨"L", "L", none, 5, "", []⟩])) ∧
    (∀ n, n ∈ discoveryCandidates
        [⟨"H", "H", none, 9, "", []⟩, ⟨"W", "W", none, 5, "", ["Award Winning"]⟩,
         ⟨"L", "L", none, 5, "", []⟩] ↔
      n ∈ [⟨"H", "H", none, 9, "", []⟩, ⟨"W", "W", none, 5, "", ["Award Winning"]⟩,
         (⟨"L", "L", none, 5, "", []⟩ : SearchableNode)] ∧
        (8 ≤ n.score ∨ "Award Winning" ∈ n.genres)) :=
  ⟨List.Perm.refl _,
    (discovery_pool_and_grid _ _ [] (List.Perm.refl _)).1⟩

/-- Characterization of one `forEachEdge` step of the selection branch. -/
theorem candOfEdge_eq_some_iff (g : Graph) (fs : FilterState) (s x : String)
    (e : Edge) :
    candOfEdge g fs s e = some x ↔
      (((e.source = s ∧ e.target = x) ∨ (e.target = s ∧ e.source = x)) ∧
        fs.minStrength ≤ e.weight ∧ isNodeValid g fs x = true) := by
  simp only [candOfEdge]
  split_ifs with h1 h2 h3 h3
  · -- incident via the source, edge and neighbor (= target) qualify
    rw [Option.some_inj]
    constructor
    · intro h
      exact ⟨Or.inl ⟨h2, h⟩, by simpa [isValidEdge] using h3.1, h ▸ h3.2⟩
    · rintro ⟨hd, _, _⟩
      rcases hd with ⟨_, h⟩ | ⟨hts, hsx⟩
      · exact h
      · exact hts.trans (h2.symm.trans hsx)
  · -- incident via the source, edge or neighbor disqualified
    refine iff_of_false (by simp) ?_
    rintro ⟨hd, hle, hv⟩
    refine h3 ⟨by simpa [isValidEdge] using hle, ?_⟩
    have hx : e.target = x := by
      rcases hd with ⟨_, h⟩ | ⟨hts, hsx⟩
      · exact h
      · exact hts.trans (h2.symm.trans hsx)
    rwa [hx]
  · -- incident via the target only, edge and neighbor (= source) qualify
    rw [Option.some_inj]
    have ht : e.target = s := h1.resolve_left h2
    constructor
    · intro h
      exact ⟨Or.inr ⟨ht, h⟩, by simpa [isValidEdge] using h3.1, h ▸ h3.2⟩
    · rintro ⟨hd, _, _⟩
      rcases hd with ⟨hss, _⟩ | ⟨_, hsx⟩
      · exact absurd hss h2
      · exact hsx
  · -- incident via the target only, edge or neighbor disqualified
    refine iff_of_false (by simp) ?_
    rintro ⟨hd, hle, hv⟩
    refine h3 ⟨by simpa [isValidEdge] using hle, ?_⟩
    have hx : e.source = x := by
      rcases hd with ⟨hss, _⟩ | ⟨_, hsx⟩
      · exact absurd hss h2
      · exact hsx
    rwa [hx]
  · -- not incident to the selected id
    refine iff_of_false (by simp) ?_
    rintro ⟨hd, _, _⟩
    rcases hd with ⟨h, _⟩ | ⟨h, _⟩
    · exact h1 (Or.inl h)
    · exact h1 (Or.inr h)

/-- Membership in a selected id's candidate set is exactly the spec's
qualifying-neighbor relation. -/
theorem mem_neighborCandidates (g : Graph) (fs : FilterState) (s x : String) :
    x ∈ neighborCandidates g fs s ↔ isQualifiedNeighbor g fs s x := by
  simp only [neighborCandidates, List.mem_toFinset, List.mem_filterMap,
    candOfEdge_eq_some_iff, isQualifiedNeighbor]

/-- Membership in `nodesWithValidEdges`: incidence to a strength-valid
edge. -/
theorem mem_nodesWithValidEdges (g : Graph) (fs : FilterState) (x : String) :
    x ∈ nodesWithValidEdges g fs ↔
      ∃ e ∈ g.edges, (e.source = x ∨ e.target = x) ∧ fs.minStrength ≤ e.weight := by
  unfold nodesWithValidEdges
  rw [List.mem_toFinset, List.mem_flatMap]
  constructor
  · rintro ⟨e, he, hx⟩
    rw [List.mem_filter] at he
    refine ⟨e, he.1, ?_, by simpa [isValidEdge] using he.2⟩
    rcases (by simpa using hx : x = e.source ∨ x = e.target) with h | h
    · exact Or.inl h.symm
    · exact Or.inr h.symm
  · rintro ⟨e, he, hd, hle⟩
    refine ⟨e, List.mem_filter.mpr ⟨he, by simpa [isValidEdge] using hle⟩, ?_⟩
    rcases hd with h | h
    · simp [h]
    · simp [h]

/-- Membership in the guarded running intersection of the selection
branch, when every remaining selected id is a node of the graph. -/
theorem mem_selectionFold (g : Graph) (fs : FilterState) (rest : List String) :
    ∀ (init : Finset String) (x : String),
      (∀ s ∈ rest, g.hasNode s = true) →
      (x ∈ rest.foldl
          (fun cand nextId =>
            if g.hasNode nextId then cand ∩ neighborCandidates g fs nextId
            else cand) init ↔
        x ∈ init ∧ ∀ s ∈ rest, x ∈ neighborCandidates g fs s) := by
  induction rest with
  | nil => intro init x _; simp
  | cons s0 tail ih =>
    intro init x h
    have hs0 : g.hasNode s0 = true := h s0 (by simp)
    rw [List.foldl_cons]
    simp only [hs0, if_true]
    rw [ih _ x (fun s hs => h s (by simp [hs]))]
    simp only [Finset.mem_inter, List.forall_mem_cons]
    tauto

/-- Claim C1, counterexample.  With the single selected id `"G"` absent from
the graph, the computed Active Set is empty, while the claimed formula
(running intersection united with the Selection Set) still contains the
selected id itself. -/
theorem activeSet_formula_fails_on_ghost_selection :
    ¬ ("G" ∈ activeNodes ghostGraph anyFilter ["G"] ↔
        "G" ∈ (["G"] : List String) ∨
          ∀ s ∈ (["G"] : List String),
            isQualifiedNeighbor ghostGraph anyFilter s "G") := by decide

/-- Claim C1, amended.  Provided every selected id is a node of the graph,
the computed Active Set for a non-empty Selection Set is exactly the
intersection, over the selected ids, of each id's qualifying neighbor set
(strength-valid incident edges to filter-valid neighbors), united with the
Selection Set itself; an empty intersection is valid and leaves just the
selected nodes. -/
theorem activeSet_eq_intersection_union_selection (g : Graph)
    (fs : FilterState) (selection : List String) (h1 : selection ≠ [])
    (h2 : ∀ s ∈ selection, g.hasNode s = true) (x : String) :
    x ∈ activeNodes g fs selection ↔
      x ∈ selection ∨ ∀ s ∈ selection, isQualifiedNeighbor g fs s x := by
  match selection, h1 with
  | first :: rest, _ =>
    have hf : g.hasNode first = true := h2 first (by simp)
    rw [activeNodes]
    simp only [hf, if_true]
    rw [Finset.mem_union, List.mem_toFinset,
      mem_selectionFold g fs rest _ x (fun s hs => h2 s (by simp [hs]))]
    simp only [mem_neighborCandidates]
    constructor
    · rintro (h | ⟨hfst, hrest⟩)
      · exact Or.inl h
      · refine Or.inr (fun s hs => ?_)
        rcases List.mem_cons.mp hs with rfl | hs'
        · exact hfst
        · exact hrest s hs'
    · rintro (h | h)
      · exact Or.inl h
      · exact Or.inr ⟨h first (by simp), fun s hs => h s (by simp [hs])⟩

/-- Witness for `activeSet_eq_intersection_union_selection` on scenario C:
selection [X, Z] with minStrength 0; Y is a qualifying neighbor of X but
not of Z, so the intersection is empty and Y is outside the Active Set. -/
theorem activeSet_eq_intersection_union_selection_witness :
    (["X", "Z"] : List String) ≠ [] ∧
    (∀ s ∈ (["X", "Z"] : List String), scenarioGraph.hasNode s = true) ∧
    ("Y" ∈ activeNodes scenarioGraph scenarioCFilter ["X", "Z"] ↔
      "Y" ∈ (["X", "Z"] : List String) ∨
        ∀ s ∈ (["X", "Z"] : List String),
          isQualifiedNeighbor scenarioGraph scenarioCFilter s "Y") :=
  ⟨by decide, by decide,
    activeSet_eq_intersection_union_selection scenarioGraph scenarioCFilter
      ["X", "Z"] (by decide) (by decide) "Y"⟩

/-- Claim C2, counterexample.  A selected id absent from the graph (the
selection branch's `graph.hasNode(firstId)` guard fails) yields an empty
Active Set, which does not contain the selected id. -/
theorem selected_ghost_not_in_activeSet :
    "G" ∈ (["G"] : List String) ∧
    "G" ∉ activeNodes ghostGraph anyFilter ["G"] := by decide

/-- Claim C2, amended.  Whenever the first selected id is a node of the
graph, every selected id is in the computed Active Set, regardless of its
own score, genres, or award status. -/
theorem selection_subset_activeSet (g : Graph) (fs : FilterState)
    (first : String) (rest : List String) (hf : g.hasNode first = true) :
    ∀ s ∈ first :: rest, s ∈ activeNodes g fs (first :: rest) := by
  intro s hs
  rw [activeNodes]
  simp only [hf, if_true]
  exact Finset.mem_union_left _ (List.mem_toFinset.mpr hs)

/-- Witness for `selection_subset_activeSet`: in scenario C, both selected
nodes X and Z are in the Active Set (which is exactly {X, Z}). -/
theorem selection_subset_activeSet_witness :
    scenarioGraph.hasNode "X" = true ∧
    ∀ s ∈ ("X" :: ["Z"] : List String),
      s ∈ activeNodes scenarioGraph scenarioCFilter ("X" :: ["Z"]) :=
  ⟨by decide,
    selection_subset_activeSet scenarioGraph scenarioCFilter "X" ["Z"] (by decide)⟩

/-- Unpacking `isNodeValid` under the award-only switch: the node exists,
meets the score floor, and carries the award tag. -/
theorem isNodeValid_award (g : Graph) (fs : FilterState) (x : String)
    (haward : fs.isAwardWinningOnly = true) (h : isNodeValid g fs x = true) :
    ∃ attrs, g.getNodeAttributes x = some attrs ∧
      fs.minScore ≤ attrs.score ∧ "Award Winning" ∈ attrs.genres := by
  unfold isNodeValid at h
  cases hfind : g.getNodeAttributes x with
  | none => rw [hfind] at h; cases h
  | some attrs =>
    rw [hfind] at h
    simp only [haward, eq_self_iff_true, if_true] at h
    split_ifs at h with hscore
    exact ⟨attrs, rfl, le_of_not_lt hscore, by simpa using h⟩

/-- Claim C4.  With `awardWinningOnly = true` and an empty Selection Set,
every node of the computed Active Set exists in the graph with the award
tag among its genres, meets the interactive score floor, and is incident
to at least one edge whose strength meets `minStrength`. -/
theorem award_only_activeSet (g : Graph) (fs : FilterState)
    (haward : fs.isAwardWinningOnly = true) (x : String)
    (hx : x ∈ activeNodes g fs []) :
    ∃ attrs, g.getNodeAttributes x = some attrs ∧
      "Award Winning" ∈ attrs.genres ∧ fs.minScore ≤ attrs.score ∧
      ∃ e ∈ g.edges, (e.source = x ∨ e.target = x) ∧ fs.minStrength ≤ e.weight := by
  rw [activeNodes, List.mem_toFinset, List.mem_filterMap] at hx
  obtain ⟨nd, _, hf⟩ := hx
  split_ifs at hf with hc
  rw [Option.some_inj] at hf
  subst hf
  obtain ⟨hedges, hvalid⟩ := hc
  obtain ⟨attrs, hfind, hscore, hgenre⟩ := isNodeValid_award g fs nd.id haward hvalid
  exact ⟨attrs, hfind, hgenre, hscore, (mem_nodesWithValidEdges g fs nd.id).mp hedges⟩

/-- Witness for `award_only_activeSet`: the award-winning node W of
`awardGraph` is in the Active Set and satisfies every conclusion. -/
theorem award_only_activeSet_witness :
    awardFilter.isAwardWinningOnly = true ∧
    "W" ∈ activeNodes awardGraph awardFilter [] ∧
    ∃ attrs, awardGraph.getNodeAttributes "W" = some attrs ∧
      "Award Winning" ∈ attrs.genres ∧ awardFilter.minScore ≤ attrs.score ∧
      ∃ e ∈ awardGraph.edges, (e.source = "W" ∨ e.target = "W") ∧
        awardFilter.minStrength ≤ e.weight :=
  ⟨rfl, by decide, award_only_activeSet awardGraph awardFilter rfl "W" (by decide)⟩

/-- A qualifying neighbor of any id is itself in the empty-selection
Active Set: it is filter-valid (hence present) and incident to a
strength-valid edge. -/
theorem neighbor_mem_activeEmpty (g : Graph) (fs : FilterState) (s x : String)
    (h : x ∈ neighborCandidates g fs s) : x ∈ activeNodes g fs [] := by
  rw [mem_neighborCandidates] at h
  obtain ⟨e, he, hd, hle, hval⟩ := h
  have hattr : ∃ attrs, g.getNodeAttributes x = some attrs := by
    unfold isNodeValid at hval
    cases hfind : g.getNodeAttributes x with
    | none => rw [hfind] at hval; cases hval
    | some a => exact ⟨a, rfl⟩
  obtain ⟨attrs, hfind⟩ := hattr
  have hmem : attrs ∈ g.nodes := List.mem_of_find?_eq_some hfind
  have hid : attrs.id = x := by simpa using List.find?_some hfind
  rw [activeNodes, List.mem_toFinset, List.mem_filterMap]
  refine ⟨attrs, hmem, ?_⟩
  rw [hid, if_pos]
  refine ⟨(mem_nodesWithValidEdges g fs x).mpr ⟨e, he, ?_, hle⟩, hval⟩
  rcases hd with ⟨h1, h2⟩ | ⟨h1, h2⟩
  · exact Or.inr h2
  · exact Or.inl h2

/-- Claim C5.  Appending a new id `n` to the Selection Set can only shrink
the Active Set, apart from including `n` itself: the Active Set of
`S ++ [n]` is contained in the Active Set of `S` united with `{n}`. -/
theorem activeSet_antitone_in_selection (g : Graph) (fs : FilterState)
    (sel : List String) (n : String) (hn : n ∉ sel) :
    activeNodes g fs (sel ++ [n]) ⊆ activeNodes g fs sel ∪ {n} := by
  cases sel with
  | nil =>
    rw [List.nil_append]
    intro x hx
    rw [activeNodes] at hx
    split_ifs at hx with h
    · rw [Finset.mem_union, List.mem_toFinset] at hx
      rcases hx with hx | hx
      · simp only [List.mem_singleton] at hx
        subst hx
        exact Finset.mem_union_right _ (Finset.mem_singleton_self x)
      · rw [List.foldl_nil] at hx
        exact Finset.mem_union_left _ (neighbor_mem_activeEmpty g fs n x hx)
    · cases hx
  | cons first rest =>
    rw [List.cons_append]
    intro x hx
    rw [activeNodes] at hx
    split_ifs at hx with h
    · rw [activeNodes]
      simp only [h, if_true]
      rw [Finset.mem_union, List.mem_toFinset] at hx
      rw [Finset.mem_union, Finset.mem_union, List.mem_toFinset]
      rcases hx with hx | hx
      · rcases List.mem_cons.mp hx with rfl | hx'
        · exact Or.inl (Or.inl (List.mem_cons_self _ _))
        · rcases List.mem_append.mp hx' with hx'' | hx''
          · exact Or.inl (Or.inl (List.mem_cons.mpr (Or.inr hx'')))
          · simp only [List.mem_singleton] at hx''
            subst hx''
            exact Or.inr (Finset.mem_singleton_self x)
      · rw [List.foldl_append, List.foldl_cons, List.foldl_nil] at hx
        refine Or.inl (Or.inr ?_)
        split_ifs at hx with hng
        · exact (Finset.mem_inter.mp hx).1
        · exact hx
    · cases hx

/-- Witness for `activeSet_antitone_in_selection`: extending the
selection [X] of scenario B by Z shrinks the Active Set from {X, Y} to
{X, Z} minus Y, within {X, Y} ∪ {Z}. -/
theorem activeSet_antitone_in_selection_witness :
    "Z" ∉ (["X"] : List String) ∧
    activeNodes scenarioGraph scenarioCFilter (["X"] ++ ["Z"])
      ⊆ activeNodes scenarioGraph scenarioCFilter ["X"] ∪ {"Z"} :=
  ⟨by decide,
    activeSet_antitone_in_selection scenarioGraph scenarioCFilter ["X"] "Z"
      (by decide)⟩

/-- Every node the load-time node loop admits meets the score floor. -/
theorem loadNodesAux_score (ns : List RawNode) :
    ∀ acc, (∀ x ∈ acc, LOAD_MIN_SCORE ≤ x.score) →
      ∀ x ∈ loadNodesAux acc ns, LOAD_MIN_SCORE ≤ x.score := by
  induction ns with
  | nil => intro acc h; simpa [loadNodesAux] using h
  | cons node rest ih =>
    intro acc h x
    rw [loadNodesAux]
    split_ifs with h1 h2
    · exact ih acc h x
    · exact ih acc h x
    · refine ih (acc ++ [node]) ?_ x
      intro y hy
      rcases List.mem_append.mp hy with hy | hy
      · exact h y hy
      · simp only [List.mem_singleton] at hy
        subst hy
        exact le_of_not_lt h1

/-- The function `foldl min` is a lower bound of its starting value and of every list
element. -/
theorem foldl_min_le (l : List ℕ) :
    ∀ a : ℕ, l.foldl min a ≤ a ∧ ∀ x ∈ l, l.foldl min a ≤ x := by
  induction l with
  | nil => simp
  | cons b t ih =>
    intro a
    rw [List.foldl_cons]
    obtain ⟨h1, h2⟩ := ih (min a b)
    refine ⟨le_trans h1 (min_le_left a b), ?_⟩
    intro x hx
    rcases List.mem_cons.mp hx with rfl | hx
    · exact le_trans h1 (min_le_right a x)
    · exact h2 x hx

/-- The function `foldl max` is an upper bound of its starting value and of every list
element. -/
theorem le_foldl_max (l : List ℕ) :
    ∀ a : ℕ, a ≤ l.foldl max a ∧ ∀ x ∈ l, x ≤ l.foldl max a := by
  induction l with
  | nil => simp
  | cons b t ih =>
    intro a
    rw [List.foldl_cons]
    obtain ⟨h1, h2⟩ := ih (max a b)
    refine ⟨le_trans (le_max_left a b) h1, ?_⟩
    intro x hx
    rcases List.mem_cons.mp hx with rfl | hx
    · exact le_trans (le_max_right a x) h1
    · exact h2 x hx

/-- Each surviving node's degree lies between `Math.min(...degrees)` and
`Math.max(...degrees)`. -/
theorem degree_between (g : Graph) (nd : RawNode) (h : nd ∈ g.nodes) :
    minDegree g ≤ degreeIn g.edges nd.id ∧
      degreeIn g.edges nd.id ≤ maxDegree g := by
  have hmem : degreeIn g.edges nd.id ∈ g.nodes.map (fun n => degreeIn g.edges n.id) :=
    List.mem_map_of_mem _ h
  unfold minDegree maxDegree
  cases hl : g.nodes.map (fun n => degreeIn g.edges n.id) with
  | nil => rw [hl] at hmem; cases hmem
  | cons d ds =>
    rw [hl] at hmem
    constructor
    · show List.foldl min d ds ≤ degreeIn g.edges nd.id
      rcases List.mem_cons.mp hmem with he | hmem'
      · rw [he]; exact (foldl_min_le ds d).1
      · exact (foldl_min_le ds d).2 _ hmem'
    · show degreeIn g.edges nd.id ≤ List.foldl max d ds
      rcases List.mem_cons.mp hmem with he | hmem'
      · rw [he]; exact (le_foldl_max ds d).1
      · exact (le_foldl_max ds d).2 _ hmem'

/-- Claim C6.  Every node remaining after `load` meets the load score floor
and has degree at least 1; its importance is the normalized degree
centrality (0 when all surviving degrees are equal); and its rendered
size is the minimum radius 3 plus importance times the range 12, always
within [3, 15]. -/
theorem load_node_invariants (data : GraphData) (nd : RawNode)
    (h : nd ∈ (load data).nodes) :
    LOAD_MIN_SCORE ≤ nd.score ∧
    1 ≤ degreeIn (load data).edges nd.id ∧
    importanceOf (load data) nd.id =
      (if maxDegree (load data) = minDegree (load data) then 0
       else ((degreeIn (load data).edges nd.id : ℚ) - (minDegree (load data) : ℚ)) /
         ((maxDegree (load data) : ℚ) - (minDegree (load data) : ℚ))) ∧
    sizeOf (load data) nd.id = 3 + importanceOf (load data) nd.id * 12 ∧
    3 ≤ sizeOf (load data) nd.id ∧ sizeOf (load data) nd.id ≤ 15 := by
  have hmem : nd ∈ loadNodes data.nodes ∧
      degreeIn (load data).edges nd.id ≠ 0 := by
    have h' := h
    rw [show (load data).nodes =
        (loadNodes data.nodes).filter
          (fun n => degreeIn (loadEdges (loadNodes data.nodes) data.edges) n.id ≠ 0)
      from rfl, List.mem_filter] at h'
    exact ⟨h'.1, by simpa using h'.2⟩
  have hscore : LOAD_MIN_SCORE ≤ nd.score :=
    loadNodesAux_score data.nodes [] (by simp) nd hmem.1
  have hdeg1 : 1 ≤ degreeIn (load data).edges nd.id :=
    Nat.one_le_iff_ne_zero.mpr hmem.2
  obtain ⟨hmin, hmax⟩ := degree_between (load data) nd h
  set d := degreeIn (load data).edges nd.id with hd
  set m := minDegree (load data) with hm
  set M := maxDegree (load data) with hM
  have himp : importanceOf (load data) nd.id =
      (if M = m then 0 else ((d : ℚ) - (m : ℚ)) / ((M : ℚ) - (m : ℚ))) := by
    rw [importanceOf, ← hd, ← hm, ← hM]
    by_cases hMm : M = m
    · have hdm : d = m := le_antisymm (hMm ▸ hmax) hmin
      rw [if_pos hMm, hMm, hdm]
      simp [orOne]
    · have hlt : m < M := lt_of_le_of_ne (le_trans hmin hmax) (Ne.symm hMm)
      have hne : (M : ℚ) - (m : ℚ) ≠ 0 := by
        have : (m : ℚ) < (M : ℚ) := by exact_mod_cast hlt
        linarith
      rw [if_neg hMm, orOne, if_neg hne]
  have hbounds : 3 ≤ sizeOf (load data) nd.id ∧ sizeOf (load data) nd.id ≤ 15 := by
    rw [sizeOf, himp]
    by_cases hMm : M = m
    · rw [if_pos hMm]; norm_num
    · rw [if_neg hMm]
      have hlt : m < M := lt_of_le_of_ne (le_trans hmin hmax) (Ne.symm hMm)
      have hpos : (0 : ℚ) < (M : ℚ) - (m : ℚ) := by
        have : (m : ℚ) < (M : ℚ) := by exact_mod_cast hlt
        linarith
      have hnum0 : (0 : ℚ) ≤ (d : ℚ) - (m : ℚ) := by
        have : (m : ℚ) ≤ (d : ℚ) := by exact_mod_cast hmin
        linarith
      have hnum1 : (d : ℚ) - (m : ℚ) ≤ (M : ℚ) - (m : ℚ) := by
        have : (d : ℚ) ≤ (M : ℚ) := by exact_mod_cast hmax
        linarith
      have h0 : (0 : ℚ) ≤ ((d : ℚ) - (m : ℚ)) / ((M : ℚ) - (m : ℚ)) :=
        div_nonneg hnum0 (le_of_lt hpos)
      have h1 : ((d : ℚ) - (m : ℚ)) / ((M : ℚ) - (m : ℚ)) ≤ 1 :=
        (div_le_one hpos).mpr hnum1
      constructor <;> nlinarith
  exact ⟨hscore, hdeg1, himp, rfl, hbounds⟩

/-- Witness for `load_node_invariants` on the scenario dataset at node X
(degree 2, the unique maximum). -/
theorem load_node_invariants_witness :
    mkNode "X" 9 [] ∈ (load scenarioData).nodes ∧
    (LOAD_MIN_SCORE ≤ (mkNode "X" 9 []).score ∧
     1 ≤ degreeIn (load scenarioData).edges (mkNode "X" 9 []).id ∧
     importanceOf (load scenarioData) (mkNode "X" 9 []).id =
       (if maxDegree (load scenarioData) = minDegree (load scenarioData) then 0
        else ((degreeIn (load scenarioData).edges (mkNode "X" 9 []).id : ℚ) -
            (minDegree (load scenarioData) : ℚ)) /
          ((maxDegree (load scenarioData) : ℚ) -
            (minDegree (load scenarioData) : ℚ))) ∧
     sizeOf (load scenarioData) (mkNode "X" 9 []).id =
       3 + importanceOf (load scenarioData) (mkNode "X" 9 []).id * 12 ∧
     3 ≤ sizeOf (load scenarioData) (mkNode "X" 9 []).id ∧
     sizeOf (load scenarioData) (mkNode "X" 9 []).id ≤ 15) :=
  ⟨by decide, load_node_invariants scenarioData (mkNode "X" 9 []) (by decide)⟩

/-- Looking up the updated node returns the rewritten state. -/
theorem find?_map_update (l : List (String × StoreNode)) (id : String)
    (f : StoreNode → StoreNode) :
    (((l.map fun p => if p.1 = id then (p.1, f p.2) else p).find?
        (fun p => p.1 = id)).map Prod.snd)
      = ((l.find? (fun p => p.1 = id)).map Prod.snd).map f := by
  induction l with
  | nil => simp
  | cons p t ih =>
    by_cases hp : p.1 = id
    · simp [hp]
    · simp only [List.map_cons, List.find?_cons, hp, if_false, decide_False]
      exact ih

/-- Reading `getNode` after `updateNode` at the same id. -/
theorem getNode_updateNode (s : GraphStore) (id : String)
    (f : StoreNode → StoreNode) :
    (s.updateNode id f).getNode id = (s.getNode id).map f := by
  simpa [GraphStore.getNode, GraphStore.updateNode] using
    find?_map_update s.nodes id f

/-- One armed pointer-move: the drag ref stays on the same node and start
coordinates, `isDragging` absorbs whether this event crossed the 5px
threshold, and the tracked node (present with `fixed = isDragging`) keeps
its attribute record while `fixed` tracks the new dragging flag. -/
theorem handleMouseMove_armed (proj : MouseEvent → ℚ × ℚ) (store : GraphStore)
    (node : String) (x0 y0 : ℚ) (b : Bool) (ns : StoreNode) (e : MouseEvent)
    (hget : store.getNode node = some ns) (hfix : ns.fixed = b) :
    ∃ store' ns',
      handleMouseMove proj store (some ⟨node, x0, y0, b⟩) e
        = .ok (store', some ⟨node, x0, y0, b || exceedsThreshold x0 y0 e⟩) ∧
      store'.getNode node = some ns' ∧ ns'.attrs = ns.attrs ∧
      ns'.fixed = (b || exceedsThreshold x0 y0 e) := by
  have hhas : store.hasNode node = true := by
    simp [GraphStore.hasNode, hget]
  cases b with
  | true =>
    -- already dragging: no transition, position write only
    refine ⟨store.updateNode node
        (fun ns => { ns with x := (proj e).1, y := (proj e).2, vx := 0, vy := 0 }),
      { ns with x := (proj e).1, y := (proj e).2, vx := 0, vy := 0 },
      ?_, ?_, rfl, by simpa using hfix⟩
    · simp [handleMouseMove, GraphStore.setAttr, hhas]
    · rw [getNode_updateNode, hget]; rfl
  | false =>
    cases hex : exceedsThreshold x0 y0 e with
    | false =>
      -- below threshold: untouched store, still armed
      exact ⟨store, ns, by simp [handleMouseMove, hex], hget, rfl, by simpa using hfix⟩
    | true =>
      -- threshold crossed: pin the node, then write its position
      refine ⟨(store.updateNode node (fun ns => { ns with fixed := true })).updateNode
          node (fun ns => { ns with x := (proj e).1, y := (proj e).2, vx := 0, vy := 0 }),
        { ns with fixed := true, x := (proj e).1, y := (proj e).2, vx := 0, vy := 0 },
        ?_, ?_, rfl, rfl⟩
      · have hhas2 : (store.updateNode node
            (fun ns => { ns with fixed := true })).hasNode node = true := by
          simp [GraphStore.hasNode, getNode_updateNode, hget]
        simp [handleMouseMove, hex, GraphStore.hasFixedAttr, hget, hfix,
          GraphStore.setAttr, hhas, hhas2]
      · rw [getNode_updateNode, getNode_updateNode, hget]; rfl

/-- A move stream processed from the armed state keeps tracking the same
node and start point; `isDragging` becomes true exactly when some event
crossed the threshold, the node stays present with its attribute record
unchanged, and its `fixed` flag equals the final dragging flag. -/
theorem foldMoves_armed (proj : MouseEvent → ℚ × ℚ) (node : String)
    (x0 y0 : ℚ) :
    ∀ (moves : List MouseEvent) (store : GraphStore) (b : Bool) (ns : StoreNode),
      store.getNode node = some ns → ns.fixed = b →
      ∃ store' ns',
        foldMoves proj store (some ⟨node, x0, y0, b⟩) moves
          = .ok (store',
              some ⟨node, x0, y0, b || moves.any (exceedsThreshold x0 y0)⟩) ∧
        store'.getNode node = some ns' ∧ ns'.attrs = ns.attrs ∧
        ns'.fixed = (b || moves.any (exceedsThreshold x0 y0)) := by
  intro moves
  induction moves with
  | nil =>
    intro store b ns hget hfix
    exact ⟨store, ns, by simp [foldMoves], hget, rfl, by simp [hfix]⟩
  | cons e rest ih =>
    intro store b ns hget hfix
    obtain ⟨s1, ns1, hm, hg1, ha1, hf1⟩ :=
      handleMouseMove_armed proj store node x0 y0 b ns e hget hfix
    obtain ⟨s2, ns2, hm2, hg2, ha2, hf2⟩ :=
      ih s1 (b || exceedsThreshold x0 y0 e) ns1 hg1 hf1
    refine ⟨s2, ns2, ?_, hg2, ha2.trans ha1, ?_⟩
    · rw [foldMoves]
      simp only [hm]
      rw [hm2]
      simp [List.any_cons, Bool.or_assoc]
    · rw [hf2]
      simp [List.any_cons, Bool.or_assoc]

/-- While no move crosses the threshold, the armed gesture is a no-op on
the store: nothing is pinned and no attribute is touched. -/
theorem foldMoves_no_exceed (proj : MouseEvent → ℚ × ℚ) (node : String)
    (x0 y0 : ℚ) :
    ∀ (moves : List MouseEvent) (store : GraphStore),
      (∀ m ∈ moves, exceedsThreshold x0 y0 m = false) →
      foldMoves proj store (some ⟨node, x0, y0, false⟩) moves
        = .ok (store, some ⟨node, x0, y0, false⟩) := by
  intro moves
  induction moves with
  | nil => intro store _; rfl
  | cons e rest ih =>
    intro store h
    have he : exceedsThreshold x0 y0 e = false := h e (List.mem_cons_self _ _)
    have hm : handleMouseMove proj store (some ⟨node, x0, y0, false⟩) e
        = .ok (store, some ⟨node, x0, y0, false⟩) := by
      simp [handleMouseMove, he]
    rw [foldMoves]
    simp only [hm]
    exact ih store (fun m hm' => h m (List.mem_cons_of_mem _ hm'))

/-- Claim C8.  For a gesture armed by a primary-button pointer-down on a
node (initially unpinned): if no pointer-move ever crosses the 5px
threshold, every prefix of the move stream leaves the store untouched (so
the node is never pinned) and pointer-up resolves as a click — the node's
id is passed to the selection toggle and the camera is commanded to focus
it; if some move crosses the threshold, pointer-up finds the gesture in
the dragging state, unpins the node, and issues no toggle and no focus. -/
theorem click_vs_drag_resolution (proj : MouseEvent → ℚ × ℚ)
    (store : GraphStore) (node : String) (ns : StoreNode) (x0 y0 : ℚ)
    (moves : List MouseEvent)
    (hget : store.getNode node = some ns) (hfix : ns.fixed = false) :
    ((∀ m ∈ moves, exceedsThreshold x0 y0 m = false) →
      (∀ k, foldMoves proj store (downNode none 0 node x0 y0) (moves.take k)
          = .ok (store, downNode none 0 node x0 y0)) ∧
      handleMouseUp store (downNode none 0 node x0 y0)
        = .ok (store, none, some ns.attrs.id, some node)) ∧
    ((∃ m ∈ moves, exceedsThreshold x0 y0 m = true) →
      ∃ store' ns',
        foldMoves proj store (downNode none 0 node x0 y0) moves
          = .ok (store', some ⟨node, x0, y0, true⟩) ∧
        store'.getNode node = some ns' ∧ ns'.attrs = ns.attrs ∧
        handleMouseUp store' (some ⟨node, x0, y0, true⟩)
          = .ok (store'.removeFixed node, none, none, none) ∧
        (store'.removeFixed node).getNode node = some { ns' with fixed := false }) := by
  have hdown : downNode none 0 node x0 y0 = some ⟨node, x0, y0, false⟩ := rfl
  constructor
  · intro hall
    constructor
    · intro k
      rw [hdown]
      exact foldMoves_no_exceed proj node x0 y0 (moves.take k) store
        (fun m hm => hall m (List.take_subset k moves hm))
    · rw [hdown]
      simp [handleMouseUp, hget]
  · rintro ⟨m, hmem, hex⟩
    have hany : moves.any (exceedsThreshold x0 y0) = true :=
      List.any_eq_true.mpr ⟨m, hmem, hex⟩
    obtain ⟨store', ns', hfold, hg, ha, hf⟩ :=
      foldMoves_armed proj node x0 y0 moves store false ns hget hfix
    simp only [hany, Bool.false_or] at hfold hf
    have hhas' : store'.hasNode node = true := by
      simp [GraphStore.hasNode, hg]
    refine ⟨store', ns', ?_, hg, ha, ?_, ?_⟩
    · rw [hdown]; exact hfold
    · simp [handleMouseUp, hhas']
    · rw [GraphStore.removeFixed, getNode_updateNode, hg]; rfl

/-- Witness for `click_vs_drag_resolution`: a one-move gesture on node A
of `storeA` whose single move travels 10px horizontally. -/
theorem click_vs_drag_resolution_witness :
    storeA.getNode "A" = some { attrs := mkNode "A" 5 [] } ∧
    ({ attrs := mkNode "A" 5 [] } : StoreNode).fixed = false ∧
    (((∀ m ∈ ([⟨10, 0⟩] : List MouseEvent), exceedsThreshold 0 0 m = false) →
      (∀ k, foldMoves projId storeA (downNode none 0 "A" 0 0)
          (([⟨10, 0⟩] : List MouseEvent).take k)
          = .ok (storeA, downNode none 0 "A" 0 0)) ∧
      handleMouseUp storeA (downNode none 0 "A" 0 0)
        = .ok (storeA, none,
            some ({ attrs := mkNode "A" 5 [] } : StoreNode).attrs.id, some "A")) ∧
    ((∃ m ∈ ([⟨10, 0⟩] : List MouseEvent), exceedsThreshold 0 0 m = true) →
      ∃ store' ns',
        foldMoves projId storeA (downNode none 0 "A" 0 0) [⟨10, 0⟩]
          = .ok (store', some ⟨"A", 0, 0, true⟩) ∧
        store'.getNode "A" = some ns' ∧
        ns'.attrs = ({ attrs := mkNode "A" 5 [] } : StoreNode).attrs ∧
        handleMouseUp store' (some ⟨"A", 0, 0, true⟩)
          = .ok (store'.removeFixed "A", none, none, none) ∧
        (store'.removeFixed "A").getNode "A" = some { ns' with fixed := false })) :=
  ⟨rfl, rfl,
    click_vs_drag_resolution projId storeA "A" { attrs := mkNode "A" 5 [] }
      0 0 [⟨10, 0⟩] rfl rfl⟩

end MangaNexus
